import Mathlib

/-!
Shallow embedding of the climbing-timer server's rotation engine, phase
clock, room registry, and import pipeline (src/server.js), together with
proofs about the behaviours claimed in the specification.

Conventions of the embedding:
* JS objects become structures; JS mutation becomes functional update.
* The `climberProgress` JS object (climber name -> sorted array of boulder
  ids) becomes an association list with first-match lookup and
  first-match update, which is observationally the unique-key JS object.
* `climbers[i]` out-of-range reads, which yield `undefined` (falsy) in JS,
  become `Option`-valued `List.get?` reads.
* The JS ascending numeric `sort` becomes `List.insertionSort (· ≤ ·)`.
* All call sites of `advanceBoulder` in server.js pass a concrete
  `boulderIndex`, so the embedding takes the index as a `Nat` (the
  `null` default parameter is dead at every call site).
-/

namespace ClimbingTimer

/-- A boulder, as built by the import and mutated by the rotation engine
(src/server.js, object literals at lines 360-363). -/
structure Boulder where
  boulderId : Nat
  climbers : List String
  currentClimberIndex : Nat
  skipNext : Bool
  hasStarted : Bool
deriving Repr, DecidableEq

/-- The `climberProgress` ledger: climber name -> list of boulder ids. -/
abbrev ClimberProgress := List (String × List Nat)

/-- A category with its four boulder slots and completion ledger. -/
structure Category where
  id : Nat
  name : String
  boulders : List Boulder
  climberProgress : ClimberProgress
deriving Repr, DecidableEq

/-- A round: display name plus its categories. -/
structure Round where
  name : String
  categories : List Category
deriving Repr, DecidableEq

/-- The phase of the countdown clock. -/
inductive Phase
  | stopped
  | climb
  | transition
deriving Repr, DecidableEq

/-- The per-room timer state (`createRoomState`, src/server.js lines 40-59). -/
structure TimerState where
  climbMin : Nat
  climbSec : Nat
  transMin : Nat
  transSec : Nat
  phase : Phase
  running : Bool
  remaining : Nat
  showNames : Bool
  rounds : List Round
  activeRoundIndex : Nat
  categories : List Category
deriving Repr, DecidableEq

/-- JS object lookup `category.climberProgress[name]`, defaulting to the
empty list when the key is absent (the effect of `ensureClimberProgress`
plus the `|| []` at the use sites). -/
def lookupProgress : ClimberProgress → String → List Nat
  | [], _ => []
  | e :: rest, name => if e.1 = name then e.2 else lookupProgress rest name

/-- JS object assignment `category.climberProgress[name] = v`: replace the
first entry with that key, or append a fresh entry. -/
def setProgress : ClimberProgress → String → List Nat → ClimberProgress
  | [], name, v => [(name, v)]
  | e :: rest, name, v =>
    if e.1 = name then (name, v) :: rest else e :: setProgress rest name v

/-- `recordClimberProgress` (src/server.js lines 436-445) acting on the
ledger: append the boulder id if absent, keeping the list sorted
ascending (`push` then numeric `sort`). -/
def recordProgressLedger (cp : ClimberProgress) (climberName : String)
    (boulderId : Nat) : ClimberProgress :=
  let current := lookupProgress cp climberName
  if current.contains boulderId then cp
  else setProgress cp climberName (List.insertionSort (· ≤ ·) (current ++ [boulderId]))

/-- `recordClimberProgress(category, climberName, boulderId)`,
src/server.js lines 436-445. -/
def recordClimberProgress (category : Category) (climberName : String)
    (boulderId : Nat) : Category :=
  { category with
    climberProgress := recordProgressLedger category.climberProgress climberName boulderId }

/-- `isClimberCompleted` (src/server.js lines 448-452): progress has at
least 4 entries and contains each of the boulder ids 1,2,3,4. -/
def isClimberCompleted (category : Category) (climberName : String) : Bool :=
  let progress := lookupProgress category.climberProgress climberName
  decide (4 ≤ progress.length) && [1, 2, 3, 4].all (fun b => progress.contains b)

/-- `getNextActiveClimberIndex` (src/server.js lines 461-475): scan forward
(wrapping) from `startIndex` for the first non-completed climber; if every
scan position is completed, return `startIndex`. -/
def getNextActiveClimberIndex (boulder : Boulder) (category : Category)
    (startIndex : Nat) : Nat :=
  if boulder.climbers.length = 0 then 0
  else
    match (List.range boulder.climbers.length).find? (fun i =>
        !(isClimberCompleted category
            (boulder.climbers.getD ((startIndex + i) % boulder.climbers.length) ""))) with
    | some i => (startIndex + i) % boulder.climbers.length
    | none => startIndex

/-- `canBoulderStart` (src/server.js lines 479-486): boulder 0 always may
start; boulder i needs the previous boulder started with index > 1. -/
def canBoulderStart (category : Category) (boulderIndex : Nat) : Bool :=
  if boulderIndex = 0 then true
  else
    match category.boulders.get? (boulderIndex - 1) with
    | some prevBoulder =>
      prevBoulder.hasStarted && decide (1 < prevBoulder.currentClimberIndex)
    | none => false

/-- Set `skipNext` on the boulder at position `j`, if it exists
(`category.boulders[boulderIndex + 1].skipNext = true`, line 499). -/
def setSkipNextTrue (bs : List Boulder) (j : Nat) : List Boulder :=
  match bs.get? j with
  | some nb => bs.set j { nb with skipNext := true }
  | none => bs

/-- The not-yet-started branch of `advanceBoulder` (lines 512-518): mark
the boulder started and record progress for the climber currently under
the pointer (the pointer does not move). The JS truthiness test
`if (firstClimber)` skips recording for a missing or empty name. -/
def recordStart (category : Category) (boulder : Boulder) (i : Nat) : Category :=
  let cat1 := { category with
    boulders := category.boulders.set i { boulder with hasStarted := true } }
  match boulder.climbers.get? boulder.currentClimberIndex with
  | some firstClimber =>
    if firstClimber = "" then cat1
    else recordClimberProgress cat1 firstClimber boulder.boulderId
  | none => cat1

/-- The progress-recording step of the running branch of `advanceBoulder`
(lines 522-525), with the same JS truthiness guard. -/
def recordCurrent (category : Category) (boulder : Boulder) : Category :=
  match boulder.climbers.get? boulder.currentClimberIndex with
  | some c =>
    if c = "" then category
    else recordClimberProgress category c boulder.boulderId
  | none => category

/-- The already-running branch of `advanceBoulder` (lines 521-530): record
the current climber, then move the pointer to the next non-completed
climber (selection consults the ledger updated by the recording). -/
def advanceRunning (category : Category) (boulder : Boulder) (i : Nat) :
    Category × Bool :=
  let cat1 := recordCurrent category boulder
  let newIndex := getNextActiveClimberIndex boulder cat1
    ((boulder.currentClimberIndex + 1) % boulder.climbers.length)
  ({ cat1 with
     boulders := cat1.boulders.set i { boulder with currentClimberIndex := newIndex } },
   false)

/-- `advanceBoulder(boulder, category, boulderIndex)` (src/server.js lines
491-531), where `boulder === category.boulders[boulderIndex]`: the whole
category is transformed, and the JS return value is the second component.
Branch order as in the source: empty roster, pending skip, not started
(with the cascading-start gate), already running. -/
def advanceBoulderStep (category : Category) (i : Nat) : Category × Bool :=
  match category.boulders.get? i with
  | none => (category, false)
  | some boulder =>
    if boulder.climbers.length = 0 then (category, false)
    else if boulder.skipNext then
      ({ category with boulders :=
          if i < category.boulders.length - 1 then
            setSkipNextTrue (category.boulders.set i { boulder with skipNext := false }) (i + 1)
          else
            category.boulders.set i { boulder with skipNext := false } },
       true)
    else if boulder.hasStarted then
      advanceRunning category boulder i
    else if canBoulderStart category i then
      (recordStart category boulder i, false)
    else (category, false)

/-- The category-wide advance loop
`for (let i = 0; i < category.boulders.length; i++) advanceBoulder(...)`
(src/server.js lines 537-539), written with a fuel argument so the
recursion is structural; every branch of `advanceBoulderStep` preserves
the length of `boulders` (proved below), so fuel equal to the initial
length makes this exactly the source loop. -/
def advanceBouldersFromFuel : Nat → Category → Nat → Category
  | 0, cat, _ => cat
  | fuel + 1, cat, i =>
    if i < cat.boulders.length then
      advanceBouldersFromFuel fuel (advanceBoulderStep cat i).1 (i + 1)
    else cat

/-- One single-pass, increasing-index advance over all boulders of a
category (the loop body shared by `advanceNonHeldClimbers`,
`advance-category` and `advance-all-climbers`). -/
def advanceCategoryPass (category : Category) : Category :=
  advanceBouldersFromFuel category.boulders.length category 0

/-- `advanceNonHeldClimbers` (src/server.js lines 535-541): run the
single pass over every category. -/
def advanceNonHeldClimbers (ts : TimerState) : TimerState :=
  { ts with categories := ts.categories.map advanceCategoryPass }

/-- `totalClimb` (src/server.js line 423). -/
def totalClimb (ts : TimerState) : Nat := ts.climbMin * 60 + ts.climbSec

/-- `totalTrans` (src/server.js line 424). -/
def totalTrans (ts : TimerState) : Nat := ts.transMin * 60 + ts.transSec

/-- The zero-crossing handler (the `setTimeout` body at src/server.js
lines 566-590): in the climb phase, batch-advance the rotation, then move
to `transition` if its configured duration is positive, else loop back to
`climb`; in the transition phase, move back to `climb`. -/
def zeroCrossing (ts : TimerState) : TimerState :=
  if ts.phase = Phase.climb then
    let ts1 := advanceNonHeldClimbers ts
    if 0 < totalTrans ts1 then
      { ts1 with phase := Phase.transition, remaining := totalTrans ts1 }
    else
      { ts1 with phase := Phase.climb, remaining := totalClimb ts1 }
  else if ts.phase = Phase.transition then
    { ts with phase := Phase.climb, remaining := totalClimb ts }
  else ts

/-- The per-category body of the `reset-category-progress` handler
(src/server.js lines 913-919): clear the ledger and reset every boulder's
pointer and flags. -/
def resetCategory (category : Category) : Category :=
  { category with
    climberProgress := [],
    boulders := category.boulders.map fun b =>
      { b with currentClimberIndex := 0, hasStarted := false, skipNext := false } }

/-- The `switch-round` handler (src/server.js lines 931-973). The payload
goes through `parseInt`; `none` models a payload whose parse is `NaN`.
Out-of-range and non-numeric indices leave the state unchanged; an
in-range index becomes the active round and every category of that round
is reset wholesale. -/
def switchRound (ts : TimerState) (roundIndex : Option Int) : TimerState :=
  match roundIndex with
  | none => ts
  | some n =>
    if n < 0 ∨ (ts.rounds.length : Int) ≤ n then ts
    else
      match ts.rounds.get? n.toNat with
      | none => ts
      | some round =>
        let newRound := { round with categories := round.categories.map resetCategory }
        { ts with
          activeRoundIndex := n.toNat,
          rounds := ts.rounds.set n.toNat newRound,
          categories := newRound.categories }

/-- A payload for the `timer-update` command whose enumerable keys are a
subset of the timer fields; `none` models an absent key.
`Object.assign(ts, newState)` with such a payload overwrites exactly the
present keys (src/server.js line 659). -/
structure TimerPatch where
  climbMin : Option Nat := none
  climbSec : Option Nat := none
  transMin : Option Nat := none
  transSec : Option Nat := none
  phase : Option Phase := none
  running : Option Bool := none
  remaining : Option Nat := none
  showNames : Option Bool := none
deriving Repr, DecidableEq

/-- The state mutation of the `timer-update` handler (src/server.js lines
646-679) for a timer-fields-only payload: `Object.assign` of the present
keys; the handler additionally starts or stops the interval timer but
performs no other state change. -/
def applyTimerUpdate (ts : TimerState) (p : TimerPatch) : TimerState :=
  { ts with
    climbMin := p.climbMin.getD ts.climbMin,
    climbSec := p.climbSec.getD ts.climbSec,
    transMin := p.transMin.getD ts.transMin,
    transSec := p.transSec.getD ts.transSec,
    phase := p.phase.getD ts.phase,
    running := p.running.getD ts.running,
    remaining := p.remaining.getD ts.remaining,
    showNames := p.showNames.getD ts.showNames }

/-- The observable per-room data consulted by deletion and eviction. -/
structure RoomInfo where
  connectedClients : Nat
  running : Bool
deriving Repr, DecidableEq

/-- The registry `rooms` map, as an association list with unique keys. -/
abbrev RoomRegistry := List (String × RoomInfo)

/-- `rooms.get(roomId)`. -/
def lookupRoom (rooms : RoomRegistry) (roomId : String) : Option RoomInfo :=
  match rooms.find? (fun e => e.1 == roomId) with
  | some e => some e.2
  | none => none

/-- `rooms.delete(roomId)` on the unique-key map. -/
def removeRoom (rooms : RoomRegistry) (roomId : String) : RoomRegistry :=
  rooms.eraseP (fun e => e.1 == roomId)

/-- `deleteRoom(roomId)` (src/server.js lines 141-167): refuse when the
registry holds at most one room; otherwise delete the room if present.
The connected-viewer count, the running flag and the default-room name
are not consulted on this path (they guard only idle eviction,
`cleanupInactiveRooms`). -/
def deleteRoom (rooms : RoomRegistry) (roomId : String) : RoomRegistry × Bool :=
  if rooms.length ≤ 1 then (rooms, false)
  else
    match lookupRoom rooms roomId with
    | some _ => (removeRoom rooms roomId, true)
    | none => (rooms, false)

/-- One spreadsheet sheet: its name and its rows of cells. An absent or
non-string cell is modelled by `""` (both are falsy in the JS guards). -/
abbrev Sheet := String × List (List String)

/-- JS `String.prototype.trim()`: drop leading and trailing whitespace.
Written structurally over the character list so that the kernel can
evaluate it on concrete inputs. -/
def jsTrim (s : String) : String :=
  String.mk ((((s.data.dropWhile Char.isWhitespace).reverse.dropWhile
    Char.isWhitespace).reverse))

/-- The non-empty header columns of a sheet
(`data[0].filter(h => h && String(h).trim())`, src/server.js line 333). -/
def headersOf (data : List (List String)) : List String :=
  (data.headD []).filter (fun h => jsTrim h ≠ "")

/-- The climber names of one column (src/server.js lines 347-353): rows
after the header, trimmed, empty cells skipped. Note the column index is
the position in the **filtered** header list, exactly as the source's
`headers.map((categoryName, colIndex) => ...)`. -/
def climbersForColumn (data : List (List String)) (colIndex : Nat) : List String :=
  (data.drop 1).filterMap fun row =>
    match row.get? colIndex with
    | some cell => if jsTrim cell = "" then none else some (jsTrim cell)
    | none => none

/-- A freshly imported boulder (src/server.js lines 360-363). -/
def mkBoulder (bid : Nat) (climbers : List String) : Boulder :=
  { boulderId := bid, climbers := climbers, currentClimberIndex := 0,
    skipNext := false, hasStarted := false }

/-- A freshly imported category (src/server.js lines 356-366). -/
def mkCategory (id : Nat) (name : String) (climbers : List String) : Category :=
  { id := id, name := jsTrim name,
    boulders := [mkBoulder 1 climbers, mkBoulder 2 climbers,
                 mkBoulder 3 climbers, mkBoulder 4 climbers],
    climberProgress := [] }

/-- The sheet loop of the Excel import (src/server.js lines 321-374):
sheets with fewer than two rows or no non-empty headers are skipped; a
sheet with more than 4 headers aborts the whole import with an error
naming the sheet; otherwise the sheet becomes one round, with the
category id counter threaded across sheets. -/
def processSheets (sheets : List Sheet) (gid : Nat) (acc : List Round) :
    Except String (List Round) :=
  match sheets with
  | [] => Except.ok acc
  | (sheetName, data) :: rest =>
    if data.length < 2 then processSheets rest gid acc
    else
      let headers := headersOf data
      if headers.length = 0 then processSheets rest gid acc
      else if 4 < headers.length then
        Except.error ("Sheet \"" ++ sheetName ++
          "\": Maximum 4 categories allowed. Found: " ++ toString headers.length)
      else
        let cats := headers.enum.map fun e =>
          mkCategory (gid + e.1) e.2 (climbersForColumn data e.1)
        processSheets rest (gid + headers.length)
          (acc ++ [{ name := "Round " ++ toString (acc.length + 1), categories := cats }])

/-- The import endpoint's state effect (src/server.js lines 304-417): the
rounds are built and validated in full before the room state is touched
(lines 381-383 run only after the loop), so any rejection returns the
untouched state together with the error. -/
def importExcel (ts : TimerState) (sheets : List Sheet) :
    TimerState × Except String Unit :=
  match processSheets sheets 1 [] with
  | Except.error e => (ts, Except.error e)
  | Except.ok newRounds =>
    if newRounds.length = 0 then
      (ts, Except.error
        "No valid sheets found. Each sheet must have headers and at least one climber.")
    else
      ({ ts with
          rounds := newRounds,
          activeRoundIndex := 0,
          categories := (newRounds.headD { name := "", categories := [] }).categories },
       Except.ok ())

/-! Concrete sample states used by witnesses and counterexamples. -/

/-- A fresh room's timer state (`createRoomState`, src/server.js lines 40-59). -/
def sampleTS : TimerState :=
  { climbMin := 4, climbSec := 0, transMin := 1, transSec := 0,
    phase := Phase.stopped, running := false, remaining := 240, showNames := true,
    rounds := [], activeRoundIndex := 0, categories := [] }

/-- A two-boulder category whose first boulder carries a pending skip. -/
def skipCat : Category :=
  { id := 1, name := "M",
    boulders :=
      [{ boulderId := 1, climbers := ["A"], currentClimberIndex := 0,
         skipNext := true, hasStarted := true },
       { boulderId := 2, climbers := ["A"], currentClimberIndex := 0,
         skipNext := false, hasStarted := false }],
    climberProgress := [] }

/-- A category where boulder 0 has advanced past index 1 and boulder 1 is
still dormant, so the cascading gate lets boulder 1 start. -/
def gateCat : Category :=
  { id := 2, name := "F",
    boulders :=
      [{ boulderId := 1, climbers := ["A", "B", "C"], currentClimberIndex := 2,
         skipNext := false, hasStarted := true },
       { boulderId := 2, climbers := ["A", "B", "C"], currentClimberIndex := 0,
         skipNext := false, hasStarted := false }],
    climberProgress := [] }

/-- A running boulder whose roster holds one completed climber. -/
def doneCat : Category :=
  { id := 3, name := "J",
    boulders :=
      [{ boulderId := 1, climbers := ["A", "B"], currentClimberIndex := 1,
         skipNext := false, hasStarted := true }],
    climberProgress := [("A", [1, 2, 3, 4])] }

/-- A timer state with a dirty category sitting in round 1. -/
def dirtyTS : TimerState :=
  { sampleTS with
    rounds :=
      [{ name := "Round 1", categories := [] },
       { name := "Round 2",
         categories :=
           [{ id := 7, name := "X",
              boulders :=
                [{ boulderId := 1, climbers := ["A"], currentClimberIndex := 3,
                   skipNext := true, hasStarted := true }],
              climberProgress := [("A", [1, 2])] }] }] }

/-- A registry holding the default room (with viewers and a running clock)
and one other room. -/
def sampleRegistry : RoomRegistry :=
  [("default", { connectedClients := 5, running := true }),
   ("other", { connectedClients := 0, running := false })]

/-- An import whose first sheet has five non-empty headers but only one
row, and whose second sheet is ordinary. -/
def headerOnlySheets : List Sheet :=
  [("S1", [["a", "b", "c", "d", "e"]]), ("S2", [["A"], ["bob"]])]

/-- An import whose only sheet has five non-empty headers and a data row. -/
def fiveHeaderSheets : List Sheet :=
  [("Bad", [["a", "b", "c", "d", "e"], ["x"]])]

/-! ## Theorems -/

/-! ### Ledger lemmas -/

theorem lookupProgress_setProgress (cp : ClimberProgress) (n m : String)
    (v : List Nat) :
    lookupProgress (setProgress cp n v) m
      = if n = m then v else lookupProgress cp m := by
  induction cp with
  | nil =>
    by_cases hm : n = m <;> simp [setProgress, lookupProgress, hm]
  | cons e rest ih =>
    simp only [setProgress]
    by_cases h : e.1 = n
    · rw [if_pos h]
      by_cases hm : n = m
      · simp [lookupProgress, hm]
      · have he : e.1 ≠ m := by rw [h]; exact hm
        simp [lookupProgress, hm, he]
    · rw [if_neg h]
      by_cases hm : e.1 = m
      · have hnm : n ≠ m := fun hh => h (by rw [hm, hh])
        simp [lookupProgress, hm, hnm]
      · simp [lookupProgress, hm, ih]

theorem recordProgressLedger_of_contains (cp : ClimberProgress) (n : String)
    (b : Nat) (h : (lookupProgress cp n).contains b = true) :
    recordProgressLedger cp n b = cp := by
  simp only [recordProgressLedger]
  rw [if_pos h]

theorem recordProgressLedger_of_not_contains (cp : ClimberProgress) (n : String)
    (b : Nat) (h : ¬(lookupProgress cp n).contains b = true) :
    recordProgressLedger cp n b
      = setProgress cp n
          (List.insertionSort (· ≤ ·) (lookupProgress cp n ++ [b])) := by
  simp only [recordProgressLedger]
  rw [if_neg h]

theorem mem_lookupProgress_record_self (cp : ClimberProgress) (n : String)
    (b : Nat) : b ∈ lookupProgress (recordProgressLedger cp n b) n := by
  by_cases hc : (lookupProgress cp n).contains b = true
  · rw [recordProgressLedger_of_contains cp n b hc]
    exact List.elem_iff.mp hc
  · rw [recordProgressLedger_of_not_contains cp n b hc,
      lookupProgress_setProgress, if_pos rfl]
    exact (List.perm_insertionSort _ _).mem_iff.mpr
      (List.mem_append_right _ (List.mem_singleton.mpr rfl))

theorem lookupProgress_record_superset (cp : ClimberProgress) (n : String)
    (b : Nat) (m : String) (x : Nat) (hx : x ∈ lookupProgress cp m) :
    x ∈ lookupProgress (recordProgressLedger cp n b) m := by
  by_cases hc : (lookupProgress cp n).contains b = true
  · rw [recordProgressLedger_of_contains cp n b hc]; exact hx
  · rw [recordProgressLedger_of_not_contains cp n b hc,
      lookupProgress_setProgress]
    by_cases hm : n = m
    · subst hm
      rw [if_pos rfl]
      exact (List.perm_insertionSort _ _).mem_iff.mpr (List.mem_append_left _ hx)
    · rw [if_neg hm]; exact hx

theorem lookupProgress_record_length (cp : ClimberProgress) (n : String)
    (b : Nat) (m : String) :
    (lookupProgress cp m).length
      ≤ (lookupProgress (recordProgressLedger cp n b) m).length := by
  by_cases hc : (lookupProgress cp n).contains b = true
  · rw [recordProgressLedger_of_contains cp n b hc]
  · rw [recordProgressLedger_of_not_contains cp n b hc,
      lookupProgress_setProgress]
    by_cases hm : n = m
    · subst hm
      rw [if_pos rfl, (List.perm_insertionSort _ _).length_eq]
      simp
    · rw [if_neg hm]

theorem isClimberCompleted_record_stable (category : Category) (n : String)
    (b : Nat) (x : String) (h : isClimberCompleted category x = true) :
    isClimberCompleted (recordClimberProgress category n b) x = true := by
  simp only [isClimberCompleted, recordClimberProgress, Bool.and_eq_true,
    decide_eq_true_eq, List.all_eq_true] at h ⊢
  obtain ⟨hlen, hall⟩ := h
  refine ⟨le_trans hlen (lookupProgress_record_length _ _ _ _), ?_⟩
  intro y hy
  exact List.elem_iff.mpr
    (lookupProgress_record_superset _ _ _ _ _ (List.elem_iff.mp (hall y hy)))

theorem recordProgressLedger_idem (cp : ClimberProgress) (n : String) (b : Nat) :
    recordProgressLedger (recordProgressLedger cp n b) n b
      = recordProgressLedger cp n b :=
  recordProgressLedger_of_contains _ _ _
    (List.elem_iff.mpr (mem_lookupProgress_record_self cp n b))

theorem recordProgressLedger_sorted (cp : ClimberProgress) (n : String) (b : Nat)
    (h : ∀ m, List.Sorted (· < ·) (lookupProgress cp m)) :
    ∀ m, List.Sorted (· < ·) (lookupProgress (recordProgressLedger cp n b) m) := by
  intro m
  by_cases hc : (lookupProgress cp n).contains b = true
  · rw [recordProgressLedger_of_contains cp n b hc]; exact h m
  · rw [recordProgressLedger_of_not_contains cp n b hc,
      lookupProgress_setProgress]
    by_cases hm : n = m
    · rw [if_pos hm]
      have hperm := List.perm_insertionSort (· ≤ ·) (lookupProgress cp n ++ [b])
      have hnodup : (List.insertionSort (· ≤ ·) (lookupProgress cp n ++ [b])).Nodup := by
        refine (hperm.nodup_iff).mpr ?_
        have hnd : (lookupProgress cp n).Nodup := (h n).nodup
        have hnb : b ∉ lookupProgress cp n := fun hb => hc (List.elem_iff.mpr hb)
        simp [List.nodup_append, hnd, hnb]
      exact (List.sorted_insertionSort _ _).lt_of_le hnodup
    · rw [if_neg hm]; exact h m

/-! ### Rotation-engine step lemmas -/

theorem recordClimberProgress_boulders (category : Category) (n : String)
    (b : Nat) : (recordClimberProgress category n b).boulders = category.boulders :=
  rfl

theorem recordCurrent_boulders (category : Category) (bo : Boulder) :
    (recordCurrent category bo).boulders = category.boulders := by
  simp only [recordCurrent]
  split
  · split <;> rfl
  · rfl

theorem recordStart_boulders (category : Category) (bo : Boulder) (i : Nat) :
    (recordStart category bo i).boulders
      = category.boulders.set i { bo with hasStarted := true } := by
  simp only [recordStart]
  split
  · split <;> rfl
  · rfl

theorem isClimberCompleted_congr (c1 c2 : Category)
    (h : c1.climberProgress = c2.climberProgress) (x : String) :
    isClimberCompleted c1 x = isClimberCompleted c2 x := by
  simp only [isClimberCompleted, h]

theorem isClimberCompleted_recordCurrent_stable (category : Category)
    (bo : Boulder) (x : String) (h : isClimberCompleted category x = true) :
    isClimberCompleted (recordCurrent category bo) x = true := by
  simp only [recordCurrent]
  split
  · split
    · exact h
    · exact isClimberCompleted_record_stable _ _ _ _ h
  · exact h

theorem setSkipNextTrue_length (bs : List Boulder) (j : Nat) :
    (setSkipNextTrue bs j).length = bs.length := by
  simp only [setSkipNextTrue]
  split <;> simp

theorem setSkipNextTrue_get?_ne (bs : List Boulder) (j k : Nat) (h : j ≠ k) :
    (setSkipNextTrue bs j).get? k = bs.get? k := by
  simp only [setSkipNextTrue]
  split
  · exact List.get?_set_ne _ _ h
  · rfl

theorem setSkipNextTrue_of_none (bs : List Boulder) (j : Nat)
    (h : bs.get? j = none) : setSkipNextTrue bs j = bs := by
  simp only [setSkipNextTrue]
  rw [h]

theorem setSkipNextTrue_get?_eq (bs : List Boulder) (j : Nat) (nb : Boulder)
    (h : bs.get? j = some nb) :
    (setSkipNextTrue bs j).get? j = some { nb with skipNext := true } := by
  simp only [setSkipNextTrue]
  split
  next nb' heq =>
    obtain ⟨hj, _⟩ := List.get?_eq_some.mp heq
    rw [heq] at h
    injection h with h
    subst h
    exact List.get?_set_eq_of_lt _ hj
  next heq => rw [heq] at h; exact absurd h (by simp)

theorem advanceBoulderStep_empty (category : Category) (i : Nat) (bo : Boulder)
    (hget : category.boulders.get? i = some bo)
    (h0 : bo.climbers.length = 0) :
    advanceBoulderStep category i = (category, false) := by
  simp only [advanceBoulderStep]
  rw [hget]
  simp only [if_pos h0]

theorem advanceBoulderStep_skip_def (category : Category) (i : Nat) (bo : Boulder)
    (hget : category.boulders.get? i = some bo)
    (h0 : ¬bo.climbers.length = 0)
    (hskip : bo.skipNext = true) :
    advanceBoulderStep category i
      = ({ category with boulders :=
            (if i < category.boulders.length - 1 then
              setSkipNextTrue (category.boulders.set i { bo with skipNext := false }) (i + 1)
            else
              category.boulders.set i { bo with skipNext := false }) },
         true) := by
  simp only [advanceBoulderStep]
  rw [hget]
  simp only [if_neg h0, hskip, if_pos]

theorem advanceBoulderStep_running_def (category : Category) (i : Nat)
    (bo : Boulder)
    (hget : category.boulders.get? i = some bo)
    (h0 : ¬bo.climbers.length = 0)
    (hskip : bo.skipNext = false)
    (hst : bo.hasStarted = true) :
    advanceBoulderStep category i = advanceRunning category bo i := by
  simp only [advanceBoulderStep]
  rw [hget]
  simp only [if_neg h0, hskip, hst, if_pos, Bool.false_eq_true, if_neg,
    not_false_eq_true]

theorem advanceBoulderStep_start_def (category : Category) (i : Nat)
    (bo : Boulder)
    (hget : category.boulders.get? i = some bo)
    (h0 : ¬bo.climbers.length = 0)
    (hskip : bo.skipNext = false)
    (hst : bo.hasStarted = false)
    (hcan : canBoulderStart category i = true) :
    advanceBoulderStep category i = (recordStart category bo i, false) := by
  simp only [advanceBoulderStep]
  rw [hget]
  simp only [if_neg h0, hskip, hst, hcan, Bool.false_eq_true, if_neg,
    not_false_eq_true, if_pos]

theorem advanceBoulderStep_blocked (category : Category) (i : Nat)
    (bo : Boulder)
    (hget : category.boulders.get? i = some bo)
    (h0 : ¬bo.climbers.length = 0)
    (hskip : bo.skipNext = false)
    (hst : bo.hasStarted = false)
    (hcan : canBoulderStart category i = false) :
    advanceBoulderStep category i = (category, false) := by
  simp only [advanceBoulderStep]
  rw [hget]
  simp only [if_neg h0, hskip, hst, hcan, Bool.false_eq_true, if_neg,
    not_false_eq_true]

theorem advanceBoulderStep_length (category : Category) (i : Nat) :
    ((advanceBoulderStep category i).1).boulders.length
      = category.boulders.length := by
  cases hget : category.boulders.get? i with
  | none => simp only [advanceBoulderStep]; rw [hget]
  | some bo =>
    by_cases h0 : bo.climbers.length = 0
    · rw [advanceBoulderStep_empty category i bo hget h0]
    · by_cases hsk : bo.skipNext = true
      · rw [advanceBoulderStep_skip_def category i bo hget h0 hsk]
        dsimp only
        split
        · rw [setSkipNextTrue_length]; simp
        · simp
      · rw [Bool.not_eq_true] at hsk
        by_cases hst : bo.hasStarted = true
        · rw [advanceBoulderStep_running_def category i bo hget h0 hsk hst]
          simp [advanceRunning, recordCurrent_boulders]
        · rw [Bool.not_eq_true] at hst
          by_cases hcan : canBoulderStart category i = true
          · rw [advanceBoulderStep_start_def category i bo hget h0 hsk hst hcan]
            simp [recordStart_boulders]
          · rw [Bool.not_eq_true] at hcan
            rw [advanceBoulderStep_blocked category i bo hget h0 hsk hst hcan]

theorem advanceBoulderStep_climbers (category : Category) (i j : Nat) :
    (((advanceBoulderStep category i).1).boulders.get? j).map Boulder.climbers
      = (category.boulders.get? j).map Boulder.climbers := by
  cases hget : category.boulders.get? i with
  | none => simp only [advanceBoulderStep]; rw [hget]
  | some bo =>
    obtain ⟨hi, _⟩ := List.get?_eq_some.mp hget
    by_cases hij : j = i
    · subst hij
      by_cases h0 : bo.climbers.length = 0
      · rw [advanceBoulderStep_empty category j bo hget h0]
      · by_cases hsk : bo.skipNext = true
        · rw [advanceBoulderStep_skip_def category j bo hget h0 hsk]
          dsimp only
          split
          · rw [setSkipNextTrue_get?_ne _ _ _ (by omega),
              List.get?_set_eq_of_lt _ hi, hget]
            rfl
          · rw [List.get?_set_eq_of_lt _ hi, hget]
            rfl
        · rw [Bool.not_eq_true] at hsk
          by_cases hst : bo.hasStarted = true
          · rw [advanceBoulderStep_running_def category j bo hget h0 hsk hst]
            simp only [advanceRunning, recordCurrent_boulders]
            rw [List.get?_set_eq_of_lt _ hi, hget]
            rfl
          · rw [Bool.not_eq_true] at hst
            by_cases hcan : canBoulderStart category j = true
            · rw [advanceBoulderStep_start_def category j bo hget h0 hsk hst hcan]
              dsimp only
              rw [recordStart_boulders, List.get?_set_eq_of_lt _ hi, hget]
              rfl
            · rw [Bool.not_eq_true] at hcan
              rw [advanceBoulderStep_blocked category j bo hget h0 hsk hst hcan]
    · by_cases h0 : bo.climbers.length = 0
      · rw [advanceBoulderStep_empty category i bo hget h0]
      · by_cases hsk : bo.skipNext = true
        · rw [advanceBoulderStep_skip_def category i bo hget h0 hsk]
          dsimp only
          split
          · by_cases hj1 : j = i + 1
            · subst hj1
              cases hnb : category.boulders.get? (i + 1) with
              | none =>
                have hnb' : (category.boulders.set i
                    { bo with skipNext := false }).get? (i + 1) = none := by
                  rw [List.get?_set_ne _ _ (by omega), hnb]
                rw [setSkipNextTrue_of_none _ _ hnb', hnb']
              | some nb =>
                have hnb' : (category.boulders.set i
                    { bo with skipNext := false }).get? (i + 1) = some nb := by
                  rw [List.get?_set_ne _ _ (by omega), hnb]
                rw [setSkipNextTrue_get?_eq _ _ _ hnb']
                rfl
            · rw [setSkipNextTrue_get?_ne _ _ _ (fun h => hj1 h.symm),
                List.get?_set_ne _ _ (fun h => hij h.symm)]
          · rw [List.get?_set_ne _ _ (fun h => hij h.symm)]
        · rw [Bool.not_eq_true] at hsk
          by_cases hst : bo.hasStarted = true
          · rw [advanceBoulderStep_running_def category i bo hget h0 hsk hst]
            simp only [advanceRunning, recordCurrent_boulders]
            rw [List.get?_set_ne _ _ (fun h => hij h.symm)]
          · rw [Bool.not_eq_true] at hst
            by_cases hcan : canBoulderStart category i = true
            · rw [advanceBoulderStep_start_def category i bo hget h0 hsk hst hcan]
              dsimp only
              rw [recordStart_boulders, List.get?_set_ne _ _ (fun h => hij h.symm)]
            · rw [Bool.not_eq_true] at hcan
              rw [advanceBoulderStep_blocked category i bo hget h0 hsk hst hcan]

theorem advanceBoulderStep_get?_lt (category : Category) (i j : Nat)
    (hj : j < i) :
    ((advanceBoulderStep category i).1).boulders.get? j
      = category.boulders.get? j := by
  cases hget : category.boulders.get? i with
  | none => simp only [advanceBoulderStep]; rw [hget]
  | some bo =>
    by_cases h0 : bo.climbers.length = 0
    · rw [advanceBoulderStep_empty category i bo hget h0]
    · by_cases hsk : bo.skipNext = true
      · rw [advanceBoulderStep_skip_def category i bo hget h0 hsk]
        dsimp only
        split
        · rw [setSkipNextTrue_get?_ne _ _ _ (by omega),
            List.get?_set_ne _ _ (by omega)]
        · rw [List.get?_set_ne _ _ (by omega)]
      · rw [Bool.not_eq_true] at hsk
        by_cases hst : bo.hasStarted = true
        · rw [advanceBoulderStep_running_def category i bo hget h0 hsk hst]
          simp only [advanceRunning, recordCurrent_boulders]
          rw [List.get?_set_ne _ _ (by omega)]
        · rw [Bool.not_eq_true] at hst
          by_cases hcan : canBoulderStart category i = true
          · rw [advanceBoulderStep_start_def category i bo hget h0 hsk hst hcan]
            dsimp only
            rw [recordStart_boulders, List.get?_set_ne _ _ (by omega)]
          · rw [Bool.not_eq_true] at hcan
            rw [advanceBoulderStep_blocked category i bo hget h0 hsk hst hcan]

theorem advanceBoulderStep_get?_gt (category : Category) (i j : Nat)
    (hij : i < j) (b : Boulder)
    (hb : category.boulders.get? j = some b) :
    ∃ b', ((advanceBoulderStep category i).1).boulders.get? j = some b' ∧
      b'.climbers = b.climbers ∧
      b'.currentClimberIndex = b.currentClimberIndex ∧
      b'.hasStarted = b.hasStarted ∧
      (b.skipNext = true → b'.skipNext = true) := by
  cases hget : category.boulders.get? i with
  | none =>
    refine ⟨b, ?_, rfl, rfl, rfl, fun h => h⟩
    simp only [advanceBoulderStep]; rw [hget]; exact hb
  | some bo =>
    by_cases h0 : bo.climbers.length = 0
    · rw [advanceBoulderStep_empty category i bo hget h0]
      exact ⟨b, hb, rfl, rfl, rfl, fun h => h⟩
    · by_cases hsk : bo.skipNext = true
      · rw [advanceBoulderStep_skip_def category i bo hget h0 hsk]
        dsimp only
        by_cases hj1 : j = i + 1
        · subst hj1
          have hlt : i < category.boulders.length - 1 := by
            obtain ⟨hlen, _⟩ := List.get?_eq_some.mp hb
            omega
          rw [if_pos hlt]
          have hnb' : (category.boulders.set i
              { bo with skipNext := false }).get? (i + 1) = some b := by
            rw [List.get?_set_ne _ _ (by omega), hb]
          exact ⟨{ b with skipNext := true },
            setSkipNextTrue_get?_eq _ _ _ hnb', rfl, rfl, rfl, fun _ => rfl⟩
        · refine ⟨b, ?_, rfl, rfl, rfl, fun h => h⟩
          split
          · rw [setSkipNextTrue_get?_ne _ _ _ (fun h => hj1 h.symm),
              List.get?_set_ne _ _ (by omega), hb]
          · rw [List.get?_set_ne _ _ (by omega), hb]
      · rw [Bool.not_eq_true] at hsk
        by_cases hst : bo.hasStarted = true
        · rw [advanceBoulderStep_running_def category i bo hget h0 hsk hst]
          refine ⟨b, ?_, rfl, rfl, rfl, fun h => h⟩
          simp only [advanceRunning, recordCurrent_boulders]
          rw [List.get?_set_ne _ _ (by omega), hb]
        · rw [Bool.not_eq_true] at hst
          by_cases hcan : canBoulderStart category i = true
          · rw [advanceBoulderStep_start_def category i bo hget h0 hsk hst hcan]
            refine ⟨b, ?_, rfl, rfl, rfl, fun h => h⟩
            dsimp only
            rw [recordStart_boulders, List.get?_set_ne _ _ (by omega), hb]
          · rw [Bool.not_eq_true] at hcan
            rw [advanceBoulderStep_blocked category i bo hget h0 hsk hst hcan]
            exact ⟨b, hb, rfl, rfl, rfl, fun h => h⟩

theorem advanceBoulderStep_skip_get_self (category : Category) (i : Nat)
    (bo : Boulder) (hget : category.boulders.get? i = some bo)
    (h0 : ¬bo.climbers.length = 0) (hskip : bo.skipNext = true) :
    ((advanceBoulderStep category i).1).boulders.get? i
      = some { bo with skipNext := false } := by
  obtain ⟨hi, _⟩ := List.get?_eq_some.mp hget
  rw [advanceBoulderStep_skip_def category i bo hget h0 hskip]
  dsimp only
  split
  · rw [setSkipNextTrue_get?_ne _ _ _ (by omega), List.get?_set_eq_of_lt _ hi]
  · rw [List.get?_set_eq_of_lt _ hi]

theorem advanceBoulderStep_skip_get_next (category : Category) (i : Nat)
    (bo nb : Boulder) (hget : category.boulders.get? i = some bo)
    (h0 : ¬bo.climbers.length = 0) (hskip : bo.skipNext = true)
    (hnb : category.boulders.get? (i + 1) = some nb) :
    ((advanceBoulderStep category i).1).boulders.get? (i + 1)
      = some { nb with skipNext := true } := by
  obtain ⟨hi1, _⟩ := List.get?_eq_some.mp hnb
  rw [advanceBoulderStep_skip_def category i bo hget h0 hskip]
  dsimp only
  rw [if_pos (by omega)]
  have hnb' : (category.boulders.set i
      { bo with skipNext := false }).get? (i + 1) = some nb := by
    rw [List.get?_set_ne _ _ (by omega), hnb]
  exact setSkipNextTrue_get?_eq _ _ _ hnb'

theorem advanceRunning_get_self (category : Category) (bo : Boulder) (i : Nat)
    (hi : i < category.boulders.length) :
    ((advanceRunning category bo i).1).boulders.get? i
      = some { bo with
                 currentClimberIndex :=
                   getNextActiveClimberIndex bo (recordCurrent category bo)
                     ((bo.currentClimberIndex + 1) % bo.climbers.length) } := by
  simp only [advanceRunning]
  rw [recordCurrent_boulders, List.get?_set_eq_of_lt _ hi]

/-! ### Climber-scan lemmas -/

theorem exists_offset_mod (len start idx : Nat) (h0 : 0 < len)
    (hidx : idx < len) : ∃ i, i < len ∧ (start + i) % len = idx := by
  refine ⟨(len + idx - start % len) % len, Nat.mod_lt _ h0, ?_⟩
  have hs : start % len < len := Nat.mod_lt _ h0
  have h1 : start % len + (len + idx - start % len) = len + idx := by omega
  calc (start + (len + idx - start % len) % len) % len
      = (start + (len + idx - start % len)) % len := Nat.add_mod_mod _ _ _
    _ = (start % len + (len + idx - start % len)) % len :=
        (Nat.mod_add_mod _ _ _).symm
    _ = (len + idx) % len := by rw [h1]
    _ = idx % len := Nat.add_mod_left _ _
    _ = idx := Nat.mod_eq_of_lt hidx

theorem getNextActiveClimberIndex_lt (bo : Boulder) (category : Category)
    (start : Nat) (h0 : 0 < bo.climbers.length)
    (hs : start < bo.climbers.length) :
    getNextActiveClimberIndex bo category start < bo.climbers.length := by
  simp only [getNextActiveClimberIndex]
  rw [if_neg (by omega)]
  split
  · exact Nat.mod_lt _ h0
  · exact hs

theorem getNextActiveClimberIndex_not_completed (bo : Boulder)
    (category : Category) (start : Nat)
    (hex : ∃ c ∈ bo.climbers, isClimberCompleted category c = false) :
    isClimberCompleted category
      (bo.climbers.getD (getNextActiveClimberIndex bo category start) "")
        = false := by
  have hlen : ¬bo.climbers.length = 0 := by
    obtain ⟨c, hc, _⟩ := hex
    cases hl : bo.climbers with
    | nil => rw [hl] at hc; exact absurd hc (List.not_mem_nil c)
    | cons x xs => simp [hl]
  simp only [getNextActiveClimberIndex]
  rw [if_neg hlen]
  split
  next idx heq =>
    have hp := List.find?_some heq
    simpa using hp
  next heq =>
    exfalso
    have hall := List.find?_eq_none.mp heq
    obtain ⟨c, hc, hnc⟩ := hex
    obtain ⟨idx, hidx⟩ := List.mem_iff_get?.mp hc
    obtain ⟨hidxlt, _⟩ := List.get?_eq_some.mp hidx
    obtain ⟨i, hilt, hieq⟩ :=
      exists_offset_mod bo.climbers.length start idx (by omega) hidxlt
    have hfalse := hall i (List.mem_range.mpr hilt)
    rw [hieq] at hfalse
    have hgd : bo.climbers.getD idx "" = c := by
      show (bo.climbers.get? idx).getD "" = c
      rw [hidx]
      rfl
    rw [hgd] at hfalse
    simp [hnc] at hfalse

/-- C3: an `advanceBoulder` attempt never flips boulder i's `hasStarted`
from false to true (i > 0) unless, in the very state the attempt runs on,
boulder i-1 exists with `hasStarted` and `currentClimberIndex > 1`. -/
theorem cascading_gate (category : Category) (i : Nat) (b b' : Boulder)
    (hi : 0 < i)
    (hb : category.boulders.get? i = some b)
    (hns : b.hasStarted = false)
    (hb' : ((advanceBoulderStep category i).1).boulders.get? i = some b')
    (hs' : b'.hasStarted = true) :
    ∃ prev, category.boulders.get? (i - 1) = some prev ∧
      prev.hasStarted = true ∧ 1 < prev.currentClimberIndex := by
  by_cases h0 : b.climbers.length = 0
  · rw [advanceBoulderStep_empty category i b hb h0, hb] at hb'
    injection hb' with hb'
    rw [← hb', hns] at hs'
    exact absurd hs' (by simp)
  · by_cases hsk : b.skipNext = true
    · rw [advanceBoulderStep_skip_get_self category i b hb h0 hsk] at hb'
      injection hb' with hb'
      rw [← hb'] at hs'
      rw [show ({ b with skipNext := false } : Boulder).hasStarted
          = b.hasStarted from rfl, hns] at hs'
      exact absurd hs' (by simp)
    · rw [Bool.not_eq_true] at hsk
      by_cases hcan : canBoulderStart category i = true
      · simp only [canBoulderStart] at hcan
        rw [if_neg (by omega : ¬i = 0)] at hcan
        cases hp : category.boulders.get? (i - 1) with
        | none => rw [hp] at hcan; exact absurd hcan (by simp)
        | some prev =>
          rw [hp] at hcan
          simp only [Bool.and_eq_true, decide_eq_true_eq] at hcan
          exact ⟨prev, rfl, hcan.1, hcan.2⟩
      · rw [Bool.not_eq_true] at hcan
        rw [advanceBoulderStep_blocked category i b hb h0 hsk hns hcan, hb] at hb'
        injection hb' with hb'
        rw [← hb', hns] at hs'
        exact absurd hs' (by simp)

/-- Witness for C3 at a concrete category: boulder 1 starts during an
advance, and indeed boulder 0 was started with index 2 > 1. -/
theorem cascading_gate_witness :
    ∃ prev, gateCat.boulders.get? (1 - 1) = some prev ∧
      prev.hasStarted = true ∧ 1 < prev.currentClimberIndex :=
  cascading_gate gateCat 1 (Boulder.mk 2 ["A", "B", "C"] 0 false false)
    (Boulder.mk 2 ["A", "B", "C"] 0 false true)
    (by decide) rfl rfl (by decide) rfl

/-- C10: `advanceBoulder` keeps an in-range climber pointer in range (the
roster is never modified), and `reset-category-progress`, `switch-round`
and the import all pin every pointer to 0 — so indexing the roster at
`currentClimberIndex` stays valid across all these operations. -/
theorem index_in_bounds :
    (∀ (category : Category) (i : Nat) (bo : Boulder),
      category.boulders.get? i = some bo →
      ¬bo.climbers.length = 0 →
      bo.currentClimberIndex < bo.climbers.length →
      ∃ bo', ((advanceBoulderStep category i).1).boulders.get? i = some bo' ∧
        bo'.climbers = bo.climbers ∧
        bo'.currentClimberIndex < bo'.climbers.length) ∧
    (∀ category : Category, ∀ b ∈ (resetCategory category).boulders,
      b.currentClimberIndex = 0) ∧
    (∀ (ts : TimerState) (n : Int), 0 ≤ n → n < (ts.rounds.length : Int) →
      ∀ cat ∈ (switchRound ts (some n)).categories, ∀ b ∈ cat.boulders,
        b.currentClimberIndex = 0) ∧
    (∀ (id : Nat) (nm : String) (cl : List String),
      ∀ b ∈ (mkCategory id nm cl).boulders, b.currentClimberIndex = 0) := by
  refine ⟨?_, ?_, ?_, ?_⟩
  · intro category i bo hget h0 hidx
    obtain ⟨hi, _⟩ := List.get?_eq_some.mp hget
    by_cases hsk : bo.skipNext = true
    · exact ⟨{ bo with skipNext := false },
        advanceBoulderStep_skip_get_self category i bo hget h0 hsk, rfl, hidx⟩
    · rw [Bool.not_eq_true] at hsk
      by_cases hst : bo.hasStarted = true
      · rw [advanceBoulderStep_running_def category i bo hget h0 hsk hst]
        refine ⟨_, advanceRunning_get_self category bo i hi, rfl, ?_⟩
        exact getNextActiveClimberIndex_lt bo (recordCurrent category bo) _
          (by omega) (Nat.mod_lt _ (by omega))
      · rw [Bool.not_eq_true] at hst
        by_cases hcan : canBoulderStart category i = true
        · rw [advanceBoulderStep_start_def category i bo hget h0 hsk hst hcan]
          refine ⟨{ bo with hasStarted := true }, ?_, rfl, hidx⟩
          dsimp only
          rw [recordStart_boulders, List.get?_set_eq_of_lt _ hi]
        · rw [Bool.not_eq_true] at hcan
          rw [advanceBoulderStep_blocked category i bo hget h0 hsk hst hcan]
          exact ⟨bo, hget, rfl, hidx⟩
  · intro category b hb
    simp only [resetCategory, List.mem_map] at hb
    obtain ⟨b0, _, rfl⟩ := hb
    rfl
  · intro ts n h0 hlt cat hcat b hb
    have hnotout : ¬(n < 0 ∨ (ts.rounds.length : Int) ≤ n) := by omega
    obtain ⟨rd, hrd⟩ : ∃ rd, ts.rounds.get? n.toNat = some rd := by
      cases hr : ts.rounds.get? n.toNat with
      | none =>
        have := List.get?_eq_none.mp hr
        exact absurd this (by omega)
      | some rd => exact ⟨rd, rfl⟩
    simp only [switchRound] at hcat
    rw [if_neg hnotout, hrd] at hcat
    simp only [List.mem_map] at hcat
    obtain ⟨c0, _, rfl⟩ := hcat
    simp only [resetCategory, List.mem_map] at hb
    obtain ⟨b0, _, rfl⟩ := hb
    rfl
  · intro id nm cl b hb
    simp only [mkCategory, mkBoulder, List.mem_cons, List.not_mem_nil,
      or_false] at hb
    rcases hb with rfl | rfl | rfl | rfl <;> rfl

/-- Witness for C10 (advance part) at a concrete boulder with pointer 2 in
a roster of 3. -/
theorem index_in_bounds_witness :
    ∃ bo', ((advanceBoulderStep gateCat 0).1).boulders.get? 0 = some bo' ∧
      bo'.climbers = (Boulder.mk 1 ["A", "B", "C"] 2 false true).climbers ∧
      bo'.currentClimberIndex < bo'.climbers.length :=
  index_in_bounds.1 gateCat 0 (Boulder.mk 1 ["A", "B", "C"] 2 false true)
    rfl (by decide) (by decide)

/-- C4: once a climber's progress set is exactly {1,2,3,4}, a running
advance on any boulder of the category never parks the pointer on that
climber, as long as some climber on that boulder's roster is still
incomplete after the advance. -/
theorem completion_exclusion (category : Category) (i : Nat) (bo : Boulder)
    (x : String)
    (hget : category.boulders.get? i = some bo)
    (h0 : ¬bo.climbers.length = 0)
    (hskip : bo.skipNext = false)
    (hstart : bo.hasStarted = true)
    (hx : lookupProgress category.climberProgress x = [1, 2, 3, 4])
    (hrem : ∃ c ∈ bo.climbers,
      isClimberCompleted (advanceBoulderStep category i).1 c = false) :
    ∃ bo', ((advanceBoulderStep category i).1).boulders.get? i = some bo' ∧
      bo'.climbers.getD bo'.currentClimberIndex "" ≠ x := by
  obtain ⟨hi, _⟩ := List.get?_eq_some.mp hget
  have hrun := advanceBoulderStep_running_def category i bo hget h0 hskip hstart
  have hledger : ((advanceBoulderStep category i).1).climberProgress
      = (recordCurrent category bo).climberProgress := by
    rw [hrun]
    simp only [advanceRunning]
  have hxpre : isClimberCompleted category x = true := by
    simp only [isClimberCompleted, hx]
    decide
  have hx1 : isClimberCompleted (recordCurrent category bo) x = true :=
    isClimberCompleted_recordCurrent_stable category bo x hxpre
  have hrem1 : ∃ c ∈ bo.climbers,
      isClimberCompleted (recordCurrent category bo) c = false := by
    obtain ⟨c, hc, hcc⟩ := hrem
    refine ⟨c, hc, ?_⟩
    rw [← isClimberCompleted_congr _ _ hledger c]
    exact hcc
  have hpost : ((advanceBoulderStep category i).1).boulders.get? i
      = some { bo with
                 currentClimberIndex :=
                   getNextActiveClimberIndex bo (recordCurrent category bo)
                     ((bo.currentClimberIndex + 1) % bo.climbers.length) } := by
    rw [hrun]
    exact advanceRunning_get_self category bo i hi
  refine ⟨_, hpost, ?_⟩
  intro heq
  have hnc := getNextActiveClimberIndex_not_completed bo
    (recordCurrent category bo)
    ((bo.currentClimberIndex + 1) % bo.climbers.length) hrem1
  have heq' : bo.climbers.getD
      (getNextActiveClimberIndex bo (recordCurrent category bo)
        ((bo.currentClimberIndex + 1) % bo.climbers.length)) "" = x := heq
  rw [heq'] at hnc
  simp [hx1] at hnc

/-- Witness for C4: with climber A complete, advancing the running boulder
parks the pointer on B, not A. -/
theorem completion_exclusion_witness :
    ∃ bo', ((advanceBoulderStep doneCat 0).1).boulders.get? 0 = some bo' ∧
      bo'.climbers.getD bo'.currentClimberIndex "" ≠ "A" :=
  completion_exclusion doneCat 0 (Boulder.mk 1 ["A", "B"] 1 false true) "A"
    rfl (by decide) rfl rfl (by decide) (by decide)

/-! ### Category-pass lemmas -/

theorem advanceBouldersFromFuel_get?_lt (j : Nat) :
    ∀ (fuel : Nat) (category : Category) (i : Nat), j < i →
      (advanceBouldersFromFuel fuel category i).boulders.get? j
        = category.boulders.get? j := by
  intro fuel
  induction fuel with
  | zero => intro category i hj; rfl
  | succ fuel ih =>
    intro category i hj
    simp only [advanceBouldersFromFuel]
    split
    · rw [ih _ (i + 1) (by omega), advanceBoulderStep_get?_lt category i j hj]
    · rfl

theorem advanceBouldersFromFuel_cascade (fuel : Nat) :
    ∀ (category : Category) (i k : Nat) (bk : Boulder),
      i ≤ k →
      category.boulders.length ≤ i + fuel →
      (∀ b ∈ category.boulders, b.climbers ≠ []) →
      category.boulders.get? k = some bk →
      bk.skipNext = true →
      ∀ (j : Nat) (b : Boulder), k ≤ j →
        category.boulders.get? j = some b →
        ∃ b', (advanceBouldersFromFuel fuel category i).boulders.get? j
            = some b' ∧
          b'.skipNext = false ∧
          b'.currentClimberIndex = b.currentClimberIndex ∧
          b'.climbers = b.climbers := by
  induction fuel with
  | zero =>
    intro category i k bk hik hfuel hros hk hskip j b hkj hjb
    obtain ⟨hjlt, _⟩ := List.get?_eq_some.mp hjb
    omega
  | succ fuel ih =>
    intro category i k bk hik hfuel hros hk hskip j b hkj hjb
    obtain ⟨hjlt, _⟩ := List.get?_eq_some.mp hjb
    have hilt : i < category.boulders.length := by omega
    simp only [advanceBouldersFromFuel]
    rw [if_pos hilt]
    have hlen1 : ((advanceBoulderStep category i).1).boulders.length
        = category.boulders.length := advanceBoulderStep_length category i
    have hros1 : ∀ b ∈ ((advanceBoulderStep category i).1).boulders,
        b.climbers ≠ [] := by
      intro b hb
      obtain ⟨m, hm⟩ := List.mem_iff_get?.mp hb
      have hcl := advanceBoulderStep_climbers category i m
      rw [hm] at hcl
      cases horig : category.boulders.get? m with
      | none => rw [horig] at hcl; exact absurd hcl (by simp)
      | some b0 =>
        rw [horig] at hcl
        simp only [Option.map_some'] at hcl
        injection hcl with hcl
        rw [hcl]
        exact hros b0 (List.get?_mem horig)
    by_cases hik' : i = k
    · subst hik'
      have hione : ¬bk.climbers.length = 0 := by
        have hne := hros bk (List.get?_mem hk)
        simpa [List.length_eq_zero] using hne
      by_cases hj' : j = i
      · subst hj'
        have hbbk : b = bk := Option.some.inj (hjb.symm.trans hk)
        subst hbbk
        rw [advanceBouldersFromFuel_get?_lt j fuel _ (j + 1) (by omega)]
        exact ⟨{ b with skipNext := false },
          advanceBoulderStep_skip_get_self category j b hk hione hskip,
          rfl, rfl, rfl⟩
      · have hjgt : i < j := by omega
        obtain ⟨nb, hnb⟩ : ∃ nb, category.boulders.get? (i + 1) = some nb := by
          cases h : category.boulders.get? (i + 1) with
          | none =>
            have := List.get?_eq_none.mp h
            omega
          | some nb => exact ⟨nb, rfl⟩
        have hnb1 : ((advanceBoulderStep category i).1).boulders.get? (i + 1)
            = some { nb with skipNext := true } :=
          advanceBoulderStep_skip_get_next category i bk nb hk hione hskip hnb
        obtain ⟨b1, hb1, hb1c, hb1i, hb1s, _⟩ :=
          advanceBoulderStep_get?_gt category i j hjgt b hjb
        obtain ⟨b', hb', hsk', hidx', hcl'⟩ :=
          ih (advanceBoulderStep category i).1 (i + 1) (i + 1)
            { nb with skipNext := true } (le_refl _) (by omega) hros1 hnb1 rfl
            j b1 (by omega) hb1
        exact ⟨b', hb', hsk', by rw [hidx', hb1i], by rw [hcl', hb1c]⟩
    · have hik2 : i < k := by omega
      obtain ⟨bk1, hbk1, _, _, _, hbk1sk⟩ :=
        advanceBoulderStep_get?_gt category i k hik2 bk hk
      obtain ⟨b1, hb1, hb1c, hb1i, hb1s, _⟩ :=
        advanceBoulderStep_get?_gt category i j (by omega) b hjb
      obtain ⟨b', hb', hsk', hidx', hcl'⟩ :=
        ih (advanceBoulderStep category i).1 (i + 1) k bk1 (by omega)
          (by omega) hros1 hbk1 (hbk1sk hskip) j b1 hkj hb1
      exact ⟨b', hb', hsk', by rw [hidx', hb1i], by rw [hcl', hb1c]⟩

/-- C1 counterexample: with boulder 0 carrying `skipNext` before a single
category-wide pass, after the pass boulder 1 has `skipNext = false`, not
`true` as claimed — the pass consumes the propagated skip in the same
left-to-right sweep. -/
theorem skip_one_hop_counterexample :
    (skipCat.boulders.get? 0).map Boulder.skipNext = some true ∧
    ((advanceCategoryPass skipCat).boulders.get? 1).map Boulder.skipNext
      = some false :=
  ⟨rfl, rfl⟩

/-- C1 as amended: in a single category-wide pass over boulders with
non-empty rosters, a skip pending on boulder k is cleared there without
moving its pointer, but it does not rest on boulder k+1: the pass carries
it through every boulder from k to the end, each ending with
`skipNext = false` and an unmoved pointer. -/
theorem skip_cascades_full_pass (category : Category)
    (hros : ∀ b ∈ category.boulders, b.climbers ≠ [])
    (k : Nat) (bk : Boulder)
    (hk : category.boulders.get? k = some bk)
    (hskip : bk.skipNext = true) :
    ∀ (j : Nat) (b : Boulder), k ≤ j → category.boulders.get? j = some b →
      ∃ b', (advanceCategoryPass category).boulders.get? j = some b' ∧
        b'.skipNext = false ∧
        b'.currentClimberIndex = b.currentClimberIndex ∧
        b'.climbers = b.climbers := by
  intro j b hkj hjb
  exact advanceBouldersFromFuel_cascade category.boulders.length category 0 k bk
    (Nat.zero_le k) (by omega) hros hk hskip j b hkj hjb

/-- Witness for amended C1 at the concrete two-boulder category: boulder 1
ends the pass with `skipNext = false` and its pointer still at 0. -/
theorem skip_cascades_full_pass_witness :
    ∃ b', (advanceCategoryPass skipCat).boulders.get? 1 = some b' ∧
      b'.skipNext = false ∧
      b'.currentClimberIndex
        = (Boulder.mk 2 ["A"] 0 false false).currentClimberIndex ∧
      b'.climbers = (Boulder.mk 2 ["A"] 0 false false).climbers :=
  skip_cascades_full_pass skipCat (by decide) 0 (Boulder.mk 1 ["A"] 0 true true)
    rfl rfl 1 (Boulder.mk 2 ["A"] 0 false false) (by omega) rfl

/-! ### Import lemmas -/

theorem processSheets_error (sheets : List Sheet) :
    ∀ (k : Nat) (nm : String) (data : List (List String)),
      sheets.get? k = some (nm, data) →
      2 ≤ data.length →
      4 < (headersOf data).length →
      (∀ j, j < k → ∀ nm' data', sheets.get? j = some (nm', data') →
        data'.length < 2 ∨ (headersOf data').length ≤ 4) →
      ∀ (gid : Nat) (acc : List Round),
        processSheets sheets gid acc
          = Except.error ("Sheet \"" ++ nm ++
              "\": Maximum 4 categories allowed. Found: "
              ++ toString (headersOf data).length) := by
  induction sheets with
  | nil =>
    intro k nm data hk
    exact absurd hk (by simp)
  | cons sd rest ih =>
    intro k nm data hk hrows hhdr hfirst gid acc
    obtain ⟨nm0, data0⟩ := sd
    cases k with
    | zero =>
      have h := Option.some.inj hk
      injection h with h1 h2
      simp only [processSheets]
      rw [h1, h2]
      rw [if_neg (by omega : ¬data.length < 2),
        if_neg (by omega : ¬(headersOf data).length = 0),
        if_pos hhdr]
    | succ k' =>
      have h0 := hfirst 0 (by omega) nm0 data0 rfl
      have hkrest : rest.get? k' = some (nm, data) := hk
      have hfirst' : ∀ j, j < k' → ∀ nm' data',
          rest.get? j = some (nm', data') →
          data'.length < 2 ∨ (headersOf data').length ≤ 4 :=
        fun j hj nm' data' hj' => hfirst (j + 1) (by omega) nm' data' hj'
      simp only [processSheets]
      by_cases hshort : data0.length < 2
      · rw [if_pos hshort]
        exact ih k' nm data hkrest hrows hhdr hfirst' gid acc
      · rw [if_neg hshort]
        have hle : (headersOf data0).length ≤ 4 := by
          rcases h0 with h | h
          · omega
          · exact h
        by_cases hz : (headersOf data0).length = 0
        · rw [if_pos hz]
          exact ih k' nm data hkrest hrows hhdr hfirst' gid acc
        · rw [if_neg hz, if_neg (by omega : ¬4 < (headersOf data0).length)]
          exact ih k' nm data hkrest hrows hhdr hfirst' _ _

/-- C7 counterexample: a sheet with five non-empty header columns but no
data row is skipped by the `data.length < 2` guard, so this import is
accepted and does mutate the room state, against the claim that any such
sheet rejects the import. -/
theorem import_over_four_counterexample :
    4 < (headersOf [["a", "b", "c", "d", "e"]]).length ∧
    headerOnlySheets.get? 0 = some ("S1", [["a", "b", "c", "d", "e"]]) ∧
    (importExcel sampleTS headerOnlySheets).2 = Except.ok () ∧
    (importExcel sampleTS headerOnlySheets).1 ≠ sampleTS :=
  ⟨by decide, rfl, rfl, by decide⟩

/-- C7 as amended: a sheet with at least two rows and more than four
non-empty header columns rejects the whole import with an error naming
that sheet (the first such sheet), and the room state is returned
untouched — sheets with more than four headers but fewer than two rows
are skipped rather than rejected. -/
theorem import_over_four_rejected (ts : TimerState) (sheets : List Sheet)
    (k : Nat) (nm : String) (data : List (List String))
    (hk : sheets.get? k = some (nm, data))
    (hrows : 2 ≤ data.length)
    (hhdr : 4 < (headersOf data).length)
    (hfirst : ∀ j, j < k → ∀ nm' data', sheets.get? j = some (nm', data') →
      data'.length < 2 ∨ (headersOf data').length ≤ 4) :
    importExcel ts sheets
      = (ts, Except.error ("Sheet \"" ++ nm ++
          "\": Maximum 4 categories allowed. Found: "
          ++ toString (headersOf data).length)) := by
  have h := processSheets_error sheets k nm data hk hrows hhdr hfirst 1 []
  simp only [importExcel]
  rw [h]

/-- Witness for amended C7: the one-sheet import with five headers and a
data row is rejected by name with the state untouched. -/
theorem import_over_four_rejected_witness :
    fiveHeaderSheets.get? 0 = some ("Bad", [["a", "b", "c", "d", "e"], ["x"]]) ∧
    2 ≤ ([["a", "b", "c", "d", "e"], ["x"]] : List (List String)).length ∧
    4 < (headersOf [["a", "b", "c", "d", "e"], ["x"]]).length ∧
    importExcel sampleTS fiveHeaderSheets
      = (sampleTS, Except.error ("Sheet \"Bad\"" ++
          ": Maximum 4 categories allowed. Found: "
          ++ toString (headersOf [["a", "b", "c", "d", "e"], ["x"]]).length)) :=
  ⟨rfl, by decide, by decide,
   import_over_four_rejected sampleTS fiveHeaderSheets 0 "Bad"
     [["a", "b", "c", "d", "e"], ["x"]] rfl (by decide) (by decide)
     (fun j hj _ _ _ => absurd hj (Nat.not_lt_zero j))⟩

/-- C8: recording the same (climber, boulder) pair a second time is a
no-op, and recording preserves the ledger invariant that every climber's
progress list is strictly sorted ascending (no duplicates, ascending
order); since import, reset and round-switch all install empty ledgers,
every ledger the server builds satisfies that invariant. -/
theorem record_progress_idempotent_sorted (category : Category) (n : String)
    (b : Nat) :
    recordClimberProgress (recordClimberProgress category n b) n b
        = recordClimberProgress category n b ∧
    ((∀ m, List.Sorted (· < ·) (lookupProgress category.climberProgress m)) →
      ∀ m, List.Sorted (· < ·)
        (lookupProgress (recordClimberProgress category n b).climberProgress m)) := by
  constructor
  · show ({ category with climberProgress := _ } : Category) = _
    simp only [recordClimberProgress]
    exact congrArg _ (recordProgressLedger_idem category.climberProgress n b)
  · intro h m
    exact recordProgressLedger_sorted category.climberProgress n b h m

/-- Witness for C8: a double record on a concrete category collapses to a
single record, which keeps the ledger strictly sorted. -/
theorem record_progress_idempotent_sorted_witness :
    recordClimberProgress (recordClimberProgress gateCat "A" 2) "A" 2
        = recordClimberProgress gateCat "A" 2 ∧
    (∀ m, List.Sorted (· < ·)
      (lookupProgress (recordClimberProgress gateCat "A" 2).climberProgress m)) :=
  ⟨(record_progress_idempotent_sorted gateCat "A" 2).1,
   (record_progress_idempotent_sorted gateCat "A" 2).2
     (by intro m; simp [gateCat, lookupProgress])⟩

/-- C9: a `timer-update` whose payload carries only timer fields leaves
every category — hence every roster, climber pointer, `hasStarted`,
`skipNext` and progress ledger — and the whole rounds tree unchanged; the
handler never invokes the rotation engine. -/
theorem timer_patch_frame (ts : TimerState) (p : TimerPatch) :
    (applyTimerUpdate ts p).categories = ts.categories ∧
    (applyTimerUpdate ts p).rounds = ts.rounds ∧
    (applyTimerUpdate ts p).activeRoundIndex = ts.activeRoundIndex :=
  ⟨rfl, rfl, rfl⟩

/-- C6: at a climb-phase zero-crossing, a zero configured transition
duration loops the phase straight back to `climb` with the full climb
duration, while a positive transition duration moves to `transition` with
the full transition duration. -/
theorem zero_crossing_climb (ts : TimerState) (hph : ts.phase = Phase.climb) :
    (totalTrans ts = 0 →
      (zeroCrossing ts).phase = Phase.climb ∧
      (zeroCrossing ts).remaining = totalClimb ts) ∧
    (0 < totalTrans ts →
      (zeroCrossing ts).phase = Phase.transition ∧
      (zeroCrossing ts).remaining = totalTrans ts) := by
  have htr : totalTrans (advanceNonHeldClimbers ts) = totalTrans ts := rfl
  have hcl : totalClimb (advanceNonHeldClimbers ts) = totalClimb ts := rfl
  constructor
  · intro h0
    unfold zeroCrossing
    rw [if_pos hph, if_neg (by rw [htr, h0]; exact lt_irrefl 0)]
    exact ⟨rfl, hcl⟩
  · intro hpos
    unfold zeroCrossing
    rw [if_pos hph, if_pos (by rw [htr]; exact hpos)]
    exact ⟨rfl, htr⟩

/-- Witness for C6 at a concrete state with transition duration zero. -/
theorem zero_crossing_climb_witness :
    ({ sampleTS with phase := Phase.climb, transMin := 0 } : TimerState).phase
        = Phase.climb ∧
    (totalTrans { sampleTS with phase := Phase.climb, transMin := 0 } = 0 →
      (zeroCrossing { sampleTS with phase := Phase.climb, transMin := 0 }).phase
          = Phase.climb ∧
      (zeroCrossing { sampleTS with phase := Phase.climb, transMin := 0 }).remaining
          = totalClimb { sampleTS with phase := Phase.climb, transMin := 0 }) :=
  ⟨rfl, (zero_crossing_climb _ rfl).1⟩

/-- C2 counterexample: with a second room present, `deleteRoom` deletes
the default room even though it has five connected viewers and a running
clock — none of those conditions refuses the delete. -/
theorem delete_room_counterexample :
    lookupRoom sampleRegistry "default"
        = some { connectedClients := 5, running := true } ∧
    (deleteRoom sampleRegistry "default").2 = true ∧
    (deleteRoom sampleRegistry "default").1
        = [("other", { connectedClients := 0, running := false })] := by
  exact ⟨rfl, rfl, rfl⟩

/-- C2 as amended: deletion succeeds exactly when the registry holds more
than one room and the id is present; on refusal the registry is unchanged,
on success exactly that room is removed. Viewer counts, the running flag
and the default-room name play no part. -/
theorem delete_room_last_room_guard (rooms : RoomRegistry) (roomId : String) :
    (deleteRoom rooms roomId).2
        = (decide (1 < rooms.length) && (lookupRoom rooms roomId).isSome) ∧
    (deleteRoom rooms roomId).1
        = (if (deleteRoom rooms roomId).2 = true
           then removeRoom rooms roomId else rooms) := by
  unfold deleteRoom
  by_cases hlen : rooms.length ≤ 1
  · rw [if_pos hlen]
    have : ¬(1 < rooms.length) := by omega
    simp [this]
  · rw [if_neg hlen]
    have h1 : 1 < rooms.length := by omega
    cases hlook : lookupRoom rooms roomId with
    | none => simp [hlook, h1]
    | some r => simp [hlook, h1]

/-- C5: an in-range `switch-round(n)` makes every category of round `n`
start fresh — empty ledger, every boulder reset — while an out-of-range
or non-numeric index leaves the state untouched. -/
theorem switch_round_resets (ts : TimerState) (n : Int) :
    (0 ≤ n → n < (ts.rounds.length : Int) →
      ∀ round', (switchRound ts (some n)).rounds.get? n.toNat = some round' →
        ∀ cat ∈ round'.categories,
          cat.climberProgress = [] ∧
          ∀ b ∈ cat.boulders,
            b.currentClimberIndex = 0 ∧ b.hasStarted = false ∧ b.skipNext = false) ∧
    (n < 0 ∨ (ts.rounds.length : Int) ≤ n → switchRound ts (some n) = ts) ∧
    switchRound ts none = ts := by
  refine ⟨?_, ?_, rfl⟩
  · intro h0 hlt round' hget cat hcat
    have hnotout : ¬(n < 0 ∨ (ts.rounds.length : Int) ≤ n) := by omega
    have hlen : n.toNat < ts.rounds.length := by omega
    obtain ⟨rd, hrd⟩ : ∃ rd, ts.rounds.get? n.toNat = some rd := by
      cases hr : ts.rounds.get? n.toNat with
      | none => exact absurd (List.get?_eq_none.mp hr) (by omega)
      | some rd => exact ⟨rd, rfl⟩
    simp only [switchRound] at hget
    rw [if_neg hnotout, hrd] at hget
    simp only [List.get?_set_eq_of_lt _ (by simpa using hlen)] at hget
    obtain rfl : { rd with categories := rd.categories.map resetCategory } = round' :=
      by injection hget
    simp only [List.mem_map] at hcat
    obtain ⟨c0, _, rfl⟩ := hcat
    refine ⟨rfl, ?_⟩
    intro b hb
    simp only [resetCategory, List.mem_map] at hb
    obtain ⟨b0, _, rfl⟩ := hb
    exact ⟨rfl, rfl, rfl⟩
  · intro hout
    simp only [switchRound]
    rw [if_pos hout]

/-- Witness for C5 at a concrete two-round state: switching to round 1
resets its dirty category. -/
theorem switch_round_resets_witness :
    (0 : Int) ≤ 1 ∧ (1 : Int) < (dirtyTS.rounds.length : Int) ∧
    (∀ round', (switchRound dirtyTS (some 1)).rounds.get? (1 : Int).toNat = some round' →
      ∀ cat ∈ round'.categories,
        cat.climberProgress = [] ∧
        ∀ b ∈ cat.boulders,
          b.currentClimberIndex = 0 ∧ b.hasStarted = false ∧ b.skipNext = false) :=
  ⟨by decide, by decide, (switch_round_resets dirtyTS 1).1 (by decide) (by decide)⟩

end ClimbingTimer
